import Mathlib

/-!
Shallow embedding of the Twins dataset preprocessing pipeline
(alg/ganite/ganite/datasets/dataset_twins.py) and proofs about it.

The pandas DataFrame is modelled as a list of named columns of rational
numbers.  All randomness consumed by the pipeline (the uniform coefficient
draw, the Gaussian noise, the Bernoulli draws and the random permutation)
is passed in explicitly as data, and the sigmoid `expit` is passed as a
function parameter, so the pipeline is a pure function of its inputs.
-/

namespace Twins

/-- Column of numeric values, as read from the CSV table. -/
abbrev Col := List ℚ

/-- In-memory table: named columns in order, mirroring the pandas DataFrame. -/
structure DF where
  cols : List (String × Col)
  deriving DecidableEq

/-- Column lookup by name, mirroring `df[feat]`; missing columns give `[]`. -/
def DF.col (df : DF) (n : String) : Col :=
  ((df.cols.find? (fun p => p.1 == n)).map (fun p => p.2)).getD []

/-- Number of rows of the table, read off the first column. -/
def DF.nrows (df : DF) : ℕ :=
  match df.cols with
  | [] => 0
  | p :: _ => p.2.length

/-- Row-major view of the table, mirroring `df.values`. -/
def DF.values (df : DF) : List (List ℚ) :=
  (List.range df.nrows).map (fun i => df.cols.map (fun p => p.2.getD i 0))

/-- Apply a name-dependent transformation to every column of the table. -/
def mapCols (f : String → Col → Col) (df : DF) : DF :=
  ⟨df.cols.map (fun p => (p.1, f p.1 p.2))⟩

/-- The 18 medical-risk fields, coded with sentinels 8 and 9. -/
def medrisk_list : List String :=
  ["anemia", "cardiac", "lung", "diabetes", "herpes", "hydra", "hemo",
   "chyper", "phyper", "eclamp", "incervix", "pre4000", "dtotord",
   "preterm", "renal", "rh", "uterine", "othermr"]

/-- The 6 continuous fields with sentinel 99 for missing. -/
def other_list : List String :=
  ["cigar", "drink", "wtgain", "gestat", "dmeduc", "nprevist"]

/-- The 2 categorical fields documented as having no missing samples. -/
def other_list2 : List String := ["pldel", "resstatb"]

/-- Binary fields: dmar plus the medical-risk fields. -/
def bin_list : List String := ["dmar"] ++ medrisk_list

/-- Continuous fields: dmage and mpcb plus the sentinel-99 fields. -/
def con_list : List String := ["dmage", "mpcb"] ++ other_list

/-- Categorical fields that get one-hot expanded. -/
def cat_list : List String := ["adequacy"] ++ other_list2

/-- The two raw outcome-label column names. -/
def label_list : List String := ["outcome(t=0)", "outcome(t=1)"]

/-- Mode of a column in the pandas sense: `Series.mode()[0]` is the smallest
value among those of maximal multiplicity. -/
def mode (l : List ℚ) : ℚ :=
  (l.foldl (fun best v =>
    match best with
    | none => some v
    | some b =>
        if l.count b < l.count v then some v
        else if l.count v = l.count b ∧ v < b then some v
        else some b) none).getD 0

/-- Arithmetic mean of a column (0 on the empty column, which pandas renders
as NaN; the value is only compared against the sentinel 99, and both 0 and
NaN differ from 99). -/
def mean (l : List ℚ) : ℚ := l.sum / l.length

/-- Imputation of one medical-risk column: every 8 or 9 becomes the mode of
the whole original column, sentinels included, computed once. -/
def imputeMedriskCol (c : Col) : Col :=
  c.map (fun v => if v = 8 ∨ v = 9 then mode c else v)

/-- Imputation of one continuous column: every 99 becomes the mean of the
non-99 entries of that column. -/
def imputeContCol (c : Col) : Col :=
  c.map (fun v => if v = 99 then mean (c.filter (fun w => ¬ (w = 99))) else v)

/-- Per-column step of the medical-risk imputation loop. -/
def medriskStep (n : String) (c : Col) : Col :=
  if n ∈ medrisk_list then imputeMedriskCol c else c

/-- Per-column step of the continuous imputation loop. -/
def contStep (n : String) (c : Col) : Col :=
  if n ∈ other_list then imputeContCol c else c

/-- The whole imputation stage: the medical-risk loop runs first, then the
continuous loop, each touching only its own columns. -/
def impute (df : DF) : DF :=
  mapCols contStep (mapCols medriskStep df)

/-- Insert a value into an ascending-sorted list, keeping it sorted. -/
def insertSorted (v : ℚ) : List ℚ → List ℚ
  | [] => [v]
  | w :: ws => if v ≤ w then v :: w :: ws else w :: insertSorted v ws

/-- Ascending insertion sort. -/
def sortAsc (l : List ℚ) : List ℚ := l.foldr insertSorted []

/-- Sorted distinct values of a column, the category order `get_dummies`
uses for its indicator columns. -/
def sortedDistinct (c : Col) : List ℚ :=
  sortAsc c.dedup

/-- One-hot expansion of one categorical column, one indicator column per
observed category value, named after the source field. -/
def dummies (tag : String) (c : Col) : List (String × Col) :=
  (sortedDistinct c).map
    (fun v => (tag ++ "_" ++ toString v, c.map (fun w => if w = v then (1 : ℚ) else 0)))

/-- The feature table `df_new` the source assembles: continuous columns,
then binary columns, then one one-hot block per categorical column. -/
def buildDFNew (df : DF) : DF :=
  ⟨(con_list ++ bin_list).map (fun n => (n, df.col n)) ++
    cat_list.flatMap (fun n => dummies n (df.col n))⟩

/-- Number of columns the code actually uses as the feature dimension:
`x = df.values; no, dim = x.shape` gives the raw column count. -/
def codeDim (df0 : DF) : ℕ := (impute df0).cols.length

/-- Binarization of a raw outcome label: die within the tracked interval
(value below the sentinel 9999) is 1, otherwise 0. -/
def binarize (v : ℚ) : ℤ := if v < 9999 then 1 else 0

/-- Potential outcomes: the two raw label columns, binarized, row-aligned. -/
def potentialY (df : DF) : List (ℤ × ℤ) :=
  List.zipWith (fun a b => (binarize a, binarize b))
    (df.col "outcome(t=0)") (df.col "outcome(t=1)")

/-- Dot product of a row with the coefficient vector. -/
def dot (xs ys : List ℚ) : ℚ := (List.zipWith (fun a b => a * b) xs ys).sum

/-- Raw propensities: sigmoid of the linear score plus per-record noise. -/
def probTemp (expit : ℚ → ℚ) (x : List (List ℚ)) (coef : List ℚ) (noise : List ℚ) :
    List ℚ :=
  List.zipWith (fun row z => expit (dot row coef + z)) x noise

/-- Rescale the propensities by twice their mean, then clip above at 1:
`prob_t = prob_temp / (2 * mean(prob_temp)); prob_t[prob_t > 1] = 1`. -/
def scaleClip (pt : List ℚ) : List ℚ :=
  (pt.map (fun p => p / (2 * mean pt))).map (fun q => if 1 < q then 1 else q)

/-- Bernoulli sampling of the treatment vector: one uniform draw per record,
compared against that record's probability. -/
def sampleBernoulli (probs bern : List ℚ) : List ℤ :=
  List.zipWith (fun p u => if u < p then (1 : ℤ) else 0) probs bern

/-- Observed outcomes: `y = t * potential_y[:,1] + (1 - t) * potential_y[:,0]`. -/
def observedY (t : List ℤ) (py : List (ℤ × ℤ)) : List ℤ :=
  List.zipWith (fun ti p => ti * p.2 + (1 - ti) * p.1) t py

/-- Splitter: a random permutation of the record indices, cut at
`int(train_rate * no)`. -/
def splitIdx (rate : ℚ) (no : ℕ) (perm : List ℕ) : List ℕ × List ℕ :=
  let k := (⌊rate * (no : ℚ)⌋).toNat
  (perm.take k, perm.drop k)

/-- Randomness consumed by one run of the pipeline, in the order the seeded
global generator produces it. -/
structure Rand where
  coef : List ℚ
  noise : List ℚ
  bern : List ℚ
  perm : List ℕ
  deriving DecidableEq

/-- Output of the pipeline: the six returned arrays. -/
structure Output where
  train_x : List (List ℚ)
  train_t : List ℤ
  train_y : List ℤ
  train_potential_y : List (ℤ × ℤ)
  test_x : List (List ℚ)
  test_potential_y : List (ℤ × ℤ)
  deriving DecidableEq

/-- Treatment vector of the pipeline: Bernoulli draws against the scaled
and clipped propensities computed from the imputed table. -/
def pipeT (expit : ℚ → ℚ) (df0 : DF) (r : Rand) : List ℤ :=
  sampleBernoulli (scaleClip (probTemp expit (impute df0).values r.coef r.noise)) r.bern

/-- Observed-outcome vector of the pipeline. -/
def pipeY (expit : ℚ → ℚ) (df0 : DF) (r : Rand) : List ℤ :=
  observedY (pipeT expit df0 r) (potentialY (impute df0))

/-- The preprocessing pipeline, mirroring `preprocess` line by line:
imputation, `x = df.values`, potential outcomes, propensity and treatment
sampling, observed outcomes, then the random train/test split. -/
def preprocess (expit : ℚ → ℚ) (df0 : DF) (rate : ℚ) (r : Rand) : Output :=
  let df := impute df0
  let x := df.values
  let no := x.length
  let py := potentialY df
  let t := pipeT expit df0 r
  let y := pipeY expit df0 r
  let idx := splitIdx rate no r.perm
  { train_x := idx.1.map (fun i => x.getD i [])
    train_t := idx.1.map (fun i => t.getD i 0)
    train_y := idx.1.map (fun i => y.getD i 0)
    train_potential_y := idx.1.map (fun i => py.getD i (0, 0))
    test_x := idx.2.map (fun i => x.getD i [])
    test_potential_y := idx.2.map (fun i => py.getD i (0, 0)) }

/-! ### Concrete fixtures used for counterexamples and witnesses -/

/-- Tiny table whose `anemia` column consists mostly of the sentinel 8, so
that the column mode is itself 8. -/
def badDF : DF := ⟨[("anemia", [8, 8, 9])]⟩

/-- Tiny table whose `anemia` column has mode 0, away from the sentinels. -/
def goodDF : DF := ⟨[("anemia", [0, 8])]⟩

/-- Two-row table with the full 32-column Twins schema. -/
def fixtureDF : DF :=
  ⟨[("dmage", [20, 30]), ("mpcb", [1, 2]), ("cigar", [0, 10]),
    ("drink", [0, 1]), ("wtgain", [10, 20]), ("gestat", [38, 40]),
    ("dmeduc", [12, 16]), ("nprevist", [5, 7]), ("dmar", [1, 0]),
    ("anemia", [0, 1]), ("cardiac", [0, 1]), ("lung", [0, 1]),
    ("diabetes", [0, 1]), ("herpes", [0, 1]), ("hydra", [0, 1]),
    ("hemo", [0, 1]), ("chyper", [0, 1]), ("phyper", [0, 1]),
    ("eclamp", [0, 1]), ("incervix", [0, 1]), ("pre4000", [0, 1]),
    ("dtotord", [0, 1]), ("preterm", [0, 1]), ("renal", [0, 1]),
    ("rh", [0, 1]), ("uterine", [0, 1]), ("othermr", [0, 1]),
    ("adequacy", [1, 1]), ("pldel", [1, 1]), ("resstatb", [1, 1]),
    ("outcome(t=0)", [9999, 100]), ("outcome(t=1)", [50, 9999])]⟩

/-- Concrete randomness for the two-row fixture. -/
def fixRand : Rand :=
  ⟨List.replicate 32 0, [0, 0], [0, 1], [1, 0]⟩

/-! ### Helper lemmas -/

theorem getD_of_length_le {α : Type} (l : List α) (i : ℕ) (d : α) (h : l.length ≤ i) :
    l.getD i d = d := by
  simp [List.getD_eq_getElem?_getD, List.getElem?_eq_none h]

theorem getD_mem_of_lt {α : Type} (l : List α) (i : ℕ) (d : α) (h : i < l.length) :
    l.getD i d ∈ l := by
  rw [List.getD_eq_getElem l d h]
  exact List.getElem_mem h

theorem mem_zipWith {α β γ : Type} {f : α → β → γ} {a : List α} {b : List β} {c : γ}
    (h : c ∈ List.zipWith f a b) : ∃ x ∈ a, ∃ y ∈ b, c = f x y := by
  induction a generalizing b with
  | nil => simp at h
  | cons x xs ih =>
      cases b with
      | nil => simp at h
      | cons y ys =>
          simp only [List.zipWith_cons_cons, List.mem_cons] at h
          rcases h with h | h
          · exact ⟨x, by simp, y, by simp, h⟩
          · rcases ih h with ⟨u, hu, v, hv, hc⟩
            exact ⟨u, by simp [hu], v, by simp [hv], hc⟩

theorem col_mapCols (g : String → Col → Col) (hg : ∀ n, g n [] = []) (df : DF)
    (n : String) : (mapCols g df).col n = g n (df.col n) := by
  have hfind : List.find? (fun p => p.1 == n) (df.cols.map (fun p => (p.1, g p.1 p.2)))
      = (df.cols.find? (fun p => p.1 == n)).map (fun p => (p.1, g p.1 p.2)) := by
    rw [List.find?_map]
    rfl
  simp only [DF.col, mapCols, hfind]
  cases h : df.cols.find? (fun p => p.1 == n) with
  | none => simp [hg]
  | some p =>
      have hp : p.1 = n := by simpa using List.find?_some h
      simp [hp]

theorem medriskStep_nil (n : String) : medriskStep n [] = [] := by
  unfold medriskStep imputeMedriskCol
  split <;> rfl

theorem contStep_nil (n : String) : contStep n [] = [] := by
  unfold contStep imputeContCol
  split <;> rfl

theorem col_impute (df : DF) (n : String) :
    (impute df).col n = contStep n (medriskStep n (df.col n)) := by
  unfold impute
  rw [col_mapCols contStep contStep_nil, col_mapCols medriskStep medriskStep_nil]

theorem cols_length_impute (df : DF) : (impute df).cols.length = df.cols.length := by
  simp [impute, mapCols]

theorem values_row_length (df : DF) (row : List ℚ) (h : row ∈ df.values) :
    row.length = df.cols.length := by
  unfold DF.values at h
  rcases List.mem_map.mp h with ⟨i, _, rfl⟩
  simp

theorem sampleBernoulli_getD (probs bern : List ℚ) (i : ℕ) :
    (sampleBernoulli probs bern).getD i 0 = 0 ∨ (sampleBernoulli probs bern).getD i 0 = 1 := by
  by_cases h : i < (sampleBernoulli probs bern).length
  · rw [List.getD_eq_getElem _ _ h]
    unfold sampleBernoulli
    rw [List.getElem_zipWith]
    split
    · right; rfl
    · left; rfl
  · rw [getD_of_length_le _ _ _ (le_of_not_lt h)]
    left; rfl

theorem observedY_getD (t : List ℤ) (py : List (ℤ × ℤ)) (hlen : t.length = py.length)
    (i : ℕ) :
    (observedY t py).getD i 0 =
      t.getD i 0 * (py.getD i (0, 0)).2 + (1 - t.getD i 0) * (py.getD i (0, 0)).1 := by
  by_cases h : i < t.length
  · have h2 : i < py.length := by omega
    have hz : i < (observedY t py).length := by
      unfold observedY
      simp [List.length_zipWith]
      omega
    unfold observedY at hz ⊢
    rw [List.getD_eq_getElem _ _ hz, List.getElem_zipWith,
      List.getD_eq_getElem _ _ h, List.getD_eq_getElem _ _ h2]
  · have h1 : t.length ≤ i := le_of_not_lt h
    have h2 : py.length ≤ i := by omega
    have h3 : (observedY t py).length ≤ i := by
      unfold observedY
      simp [List.length_zipWith]
      omega
    rw [getD_of_length_le _ _ _ h1, getD_of_length_le _ _ _ h2,
      getD_of_length_le _ _ _ h3]
    ring

theorem length_probTemp (e : ℚ → ℚ) (x : List (List ℚ)) (coef noise : List ℚ) :
    (probTemp e x coef noise).length = min x.length noise.length := by
  simp [probTemp]

theorem length_scaleClip (pt : List ℚ) : (scaleClip pt).length = pt.length := by
  simp [scaleClip]

theorem length_sampleBernoulli (probs bern : List ℚ) :
    (sampleBernoulli probs bern).length = min probs.length bern.length := by
  simp [sampleBernoulli]

theorem getD_map_lt {α β : Type} (f : α → β) (l : List α) (j : ℕ) (d : β)
    (h : j < l.length) : (l.map f).getD j d = f (l.get ⟨j, h⟩) := by
  rw [List.getD_eq_getElem _ _ (by simpa using h)]
  simp

theorem splitIdx_take_len (rate : ℚ) (no : ℕ) (perm : List ℕ)
    (hlen : perm.length = no) (h0 : 0 ≤ rate) (h1 : rate ≤ 1) :
    ((splitIdx rate no perm).1.length : ℤ) = ⌊rate * (no : ℚ)⌋ := by
  have hub : ⌊rate * (no : ℚ)⌋ ≤ (no : ℤ) := by
    have hq : rate * (no : ℚ) ≤ (no : ℚ) := by
      calc rate * (no : ℚ) ≤ 1 * (no : ℚ) :=
            mul_le_mul_of_nonneg_right h1 (Nat.cast_nonneg no)
        _ = (no : ℚ) := one_mul _
    calc ⌊rate * (no : ℚ)⌋ ≤ ⌊(no : ℚ)⌋ := Int.floor_le_floor hq
      _ = no := Int.floor_natCast no
  have hlb : (0 : ℤ) ≤ ⌊rate * (no : ℚ)⌋ := by
    have hq : (0 : ℚ) ≤ rate * no := mul_nonneg h0 (Nat.cast_nonneg no)
    exact Int.le_floor.mpr (by simpa using hq)
  have hkn : (⌊rate * (no : ℚ)⌋).toNat ≤ no := by omega
  simp only [splitIdx, List.length_take, hlen]
  omega

/-! ### Claim theorems -/

/-- C4: for every record count `no` and every train rate in the contract
range, the splitter yields disjoint train and test index lists whose
concatenation is a permutation of `[0, no)` (each index covered exactly
once), the train list has `floor(rate * no)` elements, and the two lengths
sum to `no`. -/
theorem C4_splitter_partition (no : ℕ) (rate : ℚ) (perm : List ℕ)
    (hp : perm.Perm (List.range no)) (h0 : 0 ≤ rate) (h1 : rate ≤ 1) :
    List.Disjoint (splitIdx rate no perm).1 (splitIdx rate no perm).2
  ∧ ((splitIdx rate no perm).1 ++ (splitIdx rate no perm).2).Perm (List.range no)
  ∧ ((splitIdx rate no perm).1.length : ℤ) = ⌊rate * (no : ℚ)⌋
  ∧ (splitIdx rate no perm).1.length + (splitIdx rate no perm).2.length = no := by
  have happ : (splitIdx rate no perm).1 ++ (splitIdx rate no perm).2 = perm :=
    List.take_append_drop _ perm
  have hnodup : perm.Nodup := hp.symm.nodup (List.nodup_range no)
  have hlen : perm.length = no := by simpa using hp.length_eq
  refine ⟨?_, ?_, ?_, ?_⟩
  · exact List.disjoint_of_nodup_append (by rw [happ]; exact hnodup)
  · rw [happ]
    exact hp
  · exact splitIdx_take_len rate no perm hlen h0 h1
  · have hl2 := congrArg List.length happ
    simp only [List.length_append] at hl2
    omega

/-- C4 witness: the partition property at a concrete permutation of two
records with rate one half. -/
theorem C4_witness :
    List.Perm [1, 0] (List.range 2) ∧ (0 : ℚ) ≤ 1 / 2 ∧ (1 / 2 : ℚ) ≤ 1
  ∧ (List.Disjoint (splitIdx (1 / 2) 2 [1, 0]).1 (splitIdx (1 / 2) 2 [1, 0]).2
      ∧ ((splitIdx (1 / 2) 2 [1, 0]).1 ++ (splitIdx (1 / 2) 2 [1, 0]).2).Perm (List.range 2)
      ∧ ((splitIdx (1 / 2) 2 [1, 0]).1.length : ℤ) = ⌊(1 / 2 : ℚ) * ((2 : ℕ) : ℚ)⌋
      ∧ (splitIdx (1 / 2) 2 [1, 0]).1.length + (splitIdx (1 / 2) 2 [1, 0]).2.length = 2) :=
  ⟨by decide, by norm_num, by norm_num,
    C4_splitter_partition 2 (1 / 2) [1, 0] (by decide) (by norm_num) (by norm_num)⟩

/-- C10: degenerate train rates complete and return a degenerate split:
rate 0 gives empty training arrays and a test partition holding all `no`
records, rate 1 gives all records in training and an empty test partition. -/
theorem C10_degenerate_rate (e : ℚ → ℚ) (df : DF) (r : Rand)
    (hp : r.perm.Perm (List.range (impute df).values.length)) :
    ((preprocess e df 0 r).train_x = [] ∧ (preprocess e df 0 r).train_t = []
      ∧ (preprocess e df 0 r).train_y = [] ∧ (preprocess e df 0 r).train_potential_y = []
      ∧ (preprocess e df 0 r).test_x.length = (impute df).values.length)
  ∧ ((preprocess e df 1 r).test_x = [] ∧ (preprocess e df 1 r).test_potential_y = []
      ∧ (preprocess e df 1 r).train_x.length = (impute df).values.length) := by
  have hl : r.perm.length = (impute df).values.length := by simpa using hp.length_eq
  have hk0 : (⌊(0 : ℚ) * (((impute df).values.length : ℕ) : ℚ)⌋).toNat = 0 := by
    simp
  have hk1 : (⌊(1 : ℚ) * (((impute df).values.length : ℕ) : ℚ)⌋).toNat
      = (impute df).values.length := by
    simp
  constructor
  · refine ⟨?_, ?_, ?_, ?_, ?_⟩ <;> simp [preprocess, splitIdx, hk0, hl]
  · have ht : r.perm.take ((impute df).values.length) = r.perm := by
      rw [← hl]
      exact List.take_length r.perm
    have hd : r.perm.drop ((impute df).values.length) = [] := by
      rw [← hl]
      exact List.drop_length r.perm
    refine ⟨?_, ?_, ?_⟩ <;> simp [preprocess, splitIdx, hk1, ht, hd, hl]

/-- C10 witness: the degenerate splits at the concrete two-row fixture. -/
theorem C10_witness :
    fixRand.perm.Perm (List.range (impute fixtureDF).values.length)
  ∧ (((preprocess (fun q => q) fixtureDF 0 fixRand).train_x = []
      ∧ (preprocess (fun q => q) fixtureDF 0 fixRand).train_t = []
      ∧ (preprocess (fun q => q) fixtureDF 0 fixRand).train_y = []
      ∧ (preprocess (fun q => q) fixtureDF 0 fixRand).train_potential_y = []
      ∧ (preprocess (fun q => q) fixtureDF 0 fixRand).test_x.length
          = (impute fixtureDF).values.length)
    ∧ ((preprocess (fun q => q) fixtureDF 1 fixRand).test_x = []
      ∧ (preprocess (fun q => q) fixtureDF 1 fixRand).test_potential_y = []
      ∧ (preprocess (fun q => q) fixtureDF 1 fixRand).train_x.length
          = (impute fixtureDF).values.length)) :=
  ⟨by decide, C10_degenerate_rate (fun q => q) fixtureDF fixRand (by decide)⟩

/-- C9: the pipeline is a deterministic function of the sigmoid, the loaded
table, the train rate and the randomness stream: equal inputs give equal
outputs in every returned array. -/
theorem C9_deterministic (e e2 : ℚ → ℚ) (df df2 : DF) (rate rate2 : ℚ) (r r2 : Rand)
    (he : e = e2) (hd : df = df2) (hr : rate = rate2) (hs : r = r2) :
    preprocess e df rate r = preprocess e2 df2 rate2 r2 := by
  subst he hd hr hs
  rfl

/-- C9 witness: determinism applied at the concrete fixture. -/
theorem C9_witness :
    preprocess (fun q => q) fixtureDF (4 / 5) fixRand
      = preprocess (fun q => q) fixtureDF (4 / 5) fixRand :=
  C9_deterministic _ _ _ _ _ _ _ _ rfl rfl rfl rfl

/-- C6: the imputation stage maps each medical-risk column through a mode
computed once over the whole original column (sentinels included, never
refined as replacements are made), replaces 99 in each continuous column
by the mean of the non-99 entries of that column, and leaves every other
column, pldel and resstatb included, unchanged. -/
theorem C6_imputation_rule (df : DF) (n : String) :
    (n ∈ medrisk_list →
      (impute df).col n
        = (df.col n).map (fun v => if v = 8 ∨ v = 9 then mode (df.col n) else v))
  ∧ (n ∈ other_list →
      (impute df).col n
        = (df.col n).map
            (fun v =>
              if v = 99 then mean ((df.col n).filter (fun w => ¬ (w = 99))) else v))
  ∧ (n ∉ medrisk_list → n ∉ other_list → (impute df).col n = df.col n) := by
  have hdisj : ∀ m ∈ medrisk_list, m ∉ other_list := by decide
  refine ⟨?_, ?_, ?_⟩
  · intro hm
    rw [col_impute]
    unfold medriskStep contStep
    rw [if_pos hm, if_neg (hdisj n hm)]
    rfl
  · intro ho
    have hnm : n ∉ medrisk_list := fun hm => hdisj n hm ho
    rw [col_impute]
    unfold medriskStep contStep
    rw [if_neg hnm, if_pos ho]
    rfl
  · intro hm ho
    rw [col_impute]
    unfold medriskStep contStep
    rw [if_neg hm, if_neg ho]

/-- C6 witness: the medical-risk imputation rule at the concrete column
[8, 8, 9] of the bad fixture. -/
theorem C6_witness :
    "anemia" ∈ medrisk_list
  ∧ (impute badDF).col "anemia"
      = (badDF.col "anemia").map
          (fun v => if v = 8 ∨ v = 9 then mode (badDF.col "anemia") else v) :=
  ⟨by decide, (C6_imputation_rule badDF "anemia").1 (by decide)⟩

/-- C5 counterexample: on the loadable table whose anemia column is
[8, 8, 9] the full-column mode is 8 itself, so after imputation the
medical-risk column still contains the value 8, refuting the claim for
every loadable input table. -/
theorem C5_counterexample :
    "anemia" ∈ medrisk_list ∧ (8 : ℚ) ∈ (impute badDF).col "anemia" := by
  decide

/-- C5 amended: after imputation no medical-risk value equals 8 or 9 and no
continuous-sentinel value equals 99, provided each medical-risk column has
a full-column mode away from the sentinels and each continuous column has
a non-99 mean different from 99. -/
theorem C5_amended (df : DF)
    (hm : ∀ n ∈ medrisk_list, mode (df.col n) ≠ 8 ∧ mode (df.col n) ≠ 9)
    (ho : ∀ n ∈ other_list, mean ((df.col n).filter (fun w => ¬ (w = 99))) ≠ 99) :
    (∀ n ∈ medrisk_list, ∀ v ∈ (impute df).col n, v ≠ 8 ∧ v ≠ 9)
  ∧ (∀ n ∈ other_list, ∀ v ∈ (impute df).col n, v ≠ 99) := by
  have hdisj : ∀ m ∈ medrisk_list, m ∉ other_list := by decide
  constructor
  · intro n hn v hv
    rw [col_impute] at hv
    unfold medriskStep contStep at hv
    rw [if_pos hn, if_neg (hdisj n hn)] at hv
    unfold imputeMedriskCol at hv
    rcases List.mem_map.mp hv with ⟨w, hw, rfl⟩
    by_cases h89 : w = 8 ∨ w = 9
    · rw [if_pos h89]
      exact hm n hn
    · rw [if_neg h89]
      push_neg at h89
      exact h89
  · intro n hn v hv
    have hnm : n ∉ medrisk_list := fun h => hdisj n h hn
    rw [col_impute] at hv
    unfold medriskStep contStep at hv
    rw [if_neg hnm, if_pos hn] at hv
    unfold imputeContCol at hv
    rcases List.mem_map.mp hv with ⟨w, hw, rfl⟩
    by_cases h99 : w = 99
    · rw [if_pos h99]
      exact ho n hn
    · rw [if_neg h99]
      exact h99

/-- C5 amended witness: the amended statement at the good fixture, whose
anemia column has mode 0 and whose continuous columns are empty. -/
theorem C5_amended_witness :
    (∀ n ∈ medrisk_list, mode (goodDF.col n) ≠ 8 ∧ mode (goodDF.col n) ≠ 9)
  ∧ (∀ n ∈ other_list, mean ((goodDF.col n).filter (fun w => ¬ (w = 99))) ≠ 99)
  ∧ ((∀ n ∈ medrisk_list, ∀ v ∈ (impute goodDF).col n, v ≠ 8 ∧ v ≠ 9)
      ∧ (∀ n ∈ other_list, ∀ v ∈ (impute goodDF).col n, v ≠ 99)) := by
  have ho : ∀ n ∈ other_list, mean ((goodDF.col n).filter (fun w => ¬ (w = 99))) ≠ 99 := by
    intro n hn
    have hcol : goodDF.col n = [] := by fin_cases hn <;> decide
    rw [hcol]
    simp [mean]
  exact ⟨by decide, ho, C5_amended goodDF (by decide) ho⟩

/-- C8: the treatment probabilities are the raw propensities divided by
twice their mean and clipped above at 1; after clipping no entry exceeds 1,
and before clipping the rescaled vector has mean exactly one half whenever
the raw propensities are positive (as sigmoid outputs are). -/
theorem C8_propensity_scaling (pt : List ℚ) (hne : pt ≠ [])
    (hpos : ∀ p ∈ pt, 0 < p) :
    (∀ q ∈ scaleClip pt, q ≤ 1)
  ∧ mean (pt.map (fun p => p / (2 * mean pt))) = 1 / 2 := by
  have hlen : 0 < (pt.length : ℚ) := by
    have h := List.length_pos.mpr hne
    exact_mod_cast h
  have hsum : 0 < pt.sum := List.sum_pos pt hpos hne
  have hmean : 0 < mean pt := div_pos hsum hlen
  constructor
  · intro q hq
    unfold scaleClip at hq
    rcases List.mem_map.mp hq with ⟨q0, hq0, rfl⟩
    by_cases h : 1 < q0
    · rw [if_pos h]
    · rw [if_neg h]
      exact le_of_not_lt h
  · have hmap : (pt.map (fun p => p / (2 * mean pt))).sum = pt.sum / (2 * mean pt) := by
      simp only [div_eq_mul_inv]
      simpa using List.sum_map_mul_right pt id (2 * mean pt)⁻¹
    have hn : (pt.length : ℚ) ≠ 0 := ne_of_gt hlen
    have hs : pt.sum ≠ 0 := ne_of_gt hsum
    have hdef : ∀ l : List ℚ, mean l = l.sum / (l.length : ℚ) := fun l => rfl
    rw [hdef (pt.map (fun p => p / (2 * mean pt))), List.length_map, hmap, hdef pt]
    field_simp
    ring

/-- C8 witness: the scaling property at the concrete propensity vector
[1, 3]. -/
theorem C8_witness :
    ([1, 3] : List ℚ) ≠ []
  ∧ (∀ p ∈ ([1, 3] : List ℚ), 0 < p)
  ∧ ((∀ q ∈ scaleClip [1, 3], q ≤ 1)
      ∧ mean (([1, 3] : List ℚ).map (fun p => p / (2 * mean [1, 3]))) = 1 / 2) :=
  ⟨by decide, by decide, C8_propensity_scaling [1, 3] (by decide) (by decide)⟩

/-- C7: potential outcomes are the two raw label columns binarized by the
strict 9999 threshold, every potential-outcome entry is 0 or 1, and every
sampled treatment entry is 0 or 1. -/
theorem C7_outcomes_binary (e : ℚ → ℚ) (df : DF) (rate : ℚ) (r : Rand) (i : ℕ)
    (hi : i < (potentialY df).length) :
    (potentialY df).getD i (0, 0)
      = (if (df.col "outcome(t=0)").getD i 0 < 9999 then 1 else 0,
         if (df.col "outcome(t=1)").getD i 0 < 9999 then 1 else 0)
  ∧ (∀ p ∈ potentialY df, (p.1 = 0 ∨ p.1 = 1) ∧ (p.2 = 0 ∨ p.2 = 1))
  ∧ (∀ v ∈ (preprocess e df rate r).train_t, v = 0 ∨ v = 1) := by
  refine ⟨?_, ?_, ?_⟩
  · have hz := hi
    unfold potentialY at hz ⊢
    have h0 : i < (df.col "outcome(t=0)").length := by
      simp [List.length_zipWith] at hz
      omega
    have h1 : i < (df.col "outcome(t=1)").length := by
      simp [List.length_zipWith] at hz
      omega
    rw [List.getD_eq_getElem _ _ hz, List.getElem_zipWith,
      List.getD_eq_getElem _ _ h0, List.getD_eq_getElem _ _ h1]
    rfl
  · intro p hp
    rcases mem_zipWith hp with ⟨a, _, b, _, rfl⟩
    unfold binarize
    dsimp only
    constructor
    · split
      · right; rfl
      · left; rfl
    · split
      · right; rfl
      · left; rfl
  · intro v hv
    have htt : (preprocess e df rate r).train_t
        = (splitIdx rate (impute df).values.length r.perm).1.map
            (fun j => (pipeT e df r).getD j 0) := rfl
    rw [htt] at hv
    rcases List.mem_map.mp hv with ⟨j, _, rfl⟩
    exact sampleBernoulli_getD _ _ j

/-- C7 witness: the binarization rule and the 0/1 ranges at the two-row
fixture row 0. -/
theorem C7_witness :
    0 < (potentialY fixtureDF).length
  ∧ ((potentialY fixtureDF).getD 0 (0, 0)
      = (if (fixtureDF.col "outcome(t=0)").getD 0 0 < 9999 then 1 else 0,
         if (fixtureDF.col "outcome(t=1)").getD 0 0 < 9999 then 1 else 0)
    ∧ (∀ p ∈ potentialY fixtureDF, (p.1 = 0 ∨ p.1 = 1) ∧ (p.2 = 0 ∨ p.2 = 1))
    ∧ (∀ v ∈ (preprocess (fun q => q) fixtureDF (4 / 5) fixRand).train_t,
        v = 0 ∨ v = 1)) :=
  ⟨by decide, C7_outcomes_binary (fun q => q) fixtureDF (4 / 5) fixRand 0 (by decide)⟩

/-- C3: the observed outcome is `t * potential_y[:,1] + (1-t) * potential_y[:,0]`
pointwise, hence equals the entry of the potential-outcome pair selected by
the treatment, at every record index and also at every row of the returned
training arrays. -/
theorem C3_observed_outcome (e : ℚ → ℚ) (df : DF) (rate : ℚ) (r : Rand)
    (hn : r.noise.length = (impute df).values.length)
    (hb : r.bern.length = (impute df).values.length)
    (hpy : (potentialY (impute df)).length = (impute df).values.length) :
    (∀ i : ℕ,
      (pipeY e df r).getD i 0
        = (pipeT e df r).getD i 0 * ((potentialY (impute df)).getD i (0, 0)).2
          + (1 - (pipeT e df r).getD i 0) * ((potentialY (impute df)).getD i (0, 0)).1)
  ∧ (∀ i : ℕ,
      (pipeY e df r).getD i 0
        = if (pipeT e df r).getD i 0 = 1
            then ((potentialY (impute df)).getD i (0, 0)).2
            else ((potentialY (impute df)).getD i (0, 0)).1)
  ∧ (∀ j : ℕ,
      (preprocess e df rate r).train_y.getD j 0
        = if (preprocess e df rate r).train_t.getD j 0 = 1
            then ((preprocess e df rate r).train_potential_y.getD j (0, 0)).2
            else ((preprocess e df rate r).train_potential_y.getD j (0, 0)).1) := by
  have hlt : (pipeT e df r).length = (potentialY (impute df)).length := by
    unfold pipeT
    rw [length_sampleBernoulli, length_scaleClip, length_probTemp, hn, hb, hpy]
    simp
  have part1 : ∀ i : ℕ,
      (pipeY e df r).getD i 0
        = (pipeT e df r).getD i 0 * ((potentialY (impute df)).getD i (0, 0)).2
          + (1 - (pipeT e df r).getD i 0) * ((potentialY (impute df)).getD i (0, 0)).1 := by
    intro i
    unfold pipeY
    exact observedY_getD _ _ hlt i
  have part2 : ∀ i : ℕ,
      (pipeY e df r).getD i 0
        = if (pipeT e df r).getD i 0 = 1
            then ((potentialY (impute df)).getD i (0, 0)).2
            else ((potentialY (impute df)).getD i (0, 0)).1 := by
    intro i
    rw [part1 i]
    rcases sampleBernoulli_getD
        (scaleClip (probTemp e (impute df).values r.coef r.noise)) r.bern i with h | h
    · have ht : (pipeT e df r).getD i 0 = 0 := h
      rw [ht, if_neg (by omega)]
      ring
    · have ht : (pipeT e df r).getD i 0 = 1 := h
      rw [ht, if_pos rfl]
      ring
  refine ⟨part1, part2, ?_⟩
  intro j
  have hty : (preprocess e df rate r).train_y
      = (splitIdx rate (impute df).values.length r.perm).1.map
          (fun i => (pipeY e df r).getD i 0) := rfl
  have htt : (preprocess e df rate r).train_t
      = (splitIdx rate (impute df).values.length r.perm).1.map
          (fun i => (pipeT e df r).getD i 0) := rfl
  have htp : (preprocess e df rate r).train_potential_y
      = (splitIdx rate (impute df).values.length r.perm).1.map
          (fun i => (potentialY (impute df)).getD i (0, 0)) := rfl
  rw [hty, htt, htp]
  by_cases hj : j < (splitIdx rate (impute df).values.length r.perm).1.length
  · rw [getD_map_lt _ _ _ _ hj, getD_map_lt _ _ _ _ hj, getD_map_lt _ _ _ _ hj]
    exact part2 _
  · have hle : (splitIdx rate (impute df).values.length r.perm).1.length ≤ j :=
      le_of_not_lt hj
    rw [getD_of_length_le _ _ _ (by simpa using hle),
      getD_of_length_le _ _ _ (by simpa using hle),
      getD_of_length_le _ _ _ (by simpa using hle)]
    simp

/-- C3 witness: the selection identity at the two-row fixture. -/
theorem C3_witness :
    fixRand.noise.length = (impute fixtureDF).values.length
  ∧ fixRand.bern.length = (impute fixtureDF).values.length
  ∧ (potentialY (impute fixtureDF)).length = (impute fixtureDF).values.length
  ∧ (∀ j : ℕ,
      (preprocess (fun q => q) fixtureDF (4 / 5) fixRand).train_y.getD j 0
        = if (preprocess (fun q => q) fixtureDF (4 / 5) fixRand).train_t.getD j 0 = 1
            then ((preprocess (fun q => q) fixtureDF (4 / 5) fixRand).train_potential_y.getD
                j (0, 0)).2
            else ((preprocess (fun q => q) fixtureDF (4 / 5) fixRand).train_potential_y.getD
                j (0, 0)).1) :=
  ⟨by decide, by decide, by decide,
    (C3_observed_outcome (fun q => q) fixtureDF (4 / 5) fixRand (by decide) (by decide)
      (by decide)).2.2⟩

/-- C2: the returned feature arrays are row slices of the raw (imputed)
table `df.values`: train_x and test_x are exactly the selected rows of
`(impute df).values`, every selected row is a row of that table, each such
row carries all raw columns (the two outcome-label columns included, which
imputation leaves untouched), and the one-hot table `buildDFNew` plays no
part in the result. -/
theorem C2_features_are_raw_rows (e : ℚ → ℚ) (df : DF) (rate : ℚ) (r : Rand)
    (hp : r.perm.Perm (List.range (impute df).values.length)) :
    (preprocess e df rate r).train_x
      = (splitIdx rate (impute df).values.length r.perm).1.map
          (fun i => (impute df).values.getD i [])
  ∧ (preprocess e df rate r).test_x
      = (splitIdx rate (impute df).values.length r.perm).2.map
          (fun i => (impute df).values.getD i [])
  ∧ (∀ row ∈ (preprocess e df rate r).train_x, row ∈ (impute df).values)
  ∧ (∀ row ∈ (preprocess e df rate r).test_x, row ∈ (impute df).values)
  ∧ (∀ row ∈ (impute df).values, row.length = df.cols.length)
  ∧ (impute df).col "outcome(t=0)" = df.col "outcome(t=0)"
  ∧ (impute df).col "outcome(t=1)" = df.col "outcome(t=1)" := by
  have h1 : (preprocess e df rate r).train_x
      = (splitIdx rate (impute df).values.length r.perm).1.map
          (fun i => (impute df).values.getD i []) := rfl
  have h2 : (preprocess e df rate r).test_x
      = (splitIdx rate (impute df).values.length r.perm).2.map
          (fun i => (impute df).values.getD i []) := rfl
  have hrow : ∀ i ∈ r.perm, (impute df).values.getD i [] ∈ (impute df).values := by
    intro i hi
    have hir : i ∈ List.range (impute df).values.length := hp.mem_iff.mp hi
    exact getD_mem_of_lt _ _ _ (List.mem_range.mp hir)
  refine ⟨h1, h2, ?_, ?_, ?_, ?_, ?_⟩
  · intro row hr
    rw [h1] at hr
    rcases List.mem_map.mp hr with ⟨i, hi, rfl⟩
    exact hrow i (List.take_subset _ _ hi)
  · intro row hr
    rw [h2] at hr
    rcases List.mem_map.mp hr with ⟨i, hi, rfl⟩
    exact hrow i (List.drop_subset _ _ hi)
  · intro row hr
    rw [values_row_length (impute df) row hr]
    exact cols_length_impute df
  · rw [col_impute]
    unfold medriskStep contStep
    rw [if_neg (by decide), if_neg (by decide)]
  · rw [col_impute]
    unfold medriskStep contStep
    rw [if_neg (by decide), if_neg (by decide)]

/-- C2 witness: the row-slice property at the two-row fixture. -/
theorem C2_witness :
    fixRand.perm.Perm (List.range (impute fixtureDF).values.length)
  ∧ (∀ row ∈ (preprocess (fun q => q) fixtureDF (4 / 5) fixRand).train_x,
      row ∈ (impute fixtureDF).values)
  ∧ (∀ row ∈ (impute fixtureDF).values, row.length = fixtureDF.cols.length) :=
  ⟨by decide,
    (C2_features_are_raw_rows (fun q => q) fixtureDF (4 / 5) fixRand (by decide)).2.2.1,
    (C2_features_are_raw_rows (fun q => q) fixtureDF (4 / 5) fixRand (by decide)).2.2.2.2.1⟩

/-- C1: contrary to the claim, the feature matrix the code returns is not
the assembled continuous/binary/one-hot table: on the two-row fixture the
code feature dimension is the raw column count 32 (outcome labels
included) while the assembled `df_new` has 30 columns, and the rows the
pipeline returns as train_x have raw width 32. -/
theorem C1_feature_matrix_bug :
    codeDim fixtureDF = 32
  ∧ (buildDFNew (impute fixtureDF)).cols.length = 30
  ∧ codeDim fixtureDF ≠ (buildDFNew (impute fixtureDF)).cols.length
  ∧ (∀ row ∈ (impute fixtureDF).values, row.length = 32)
  ∧ (preprocess (fun q => q) fixtureDF 1 fixRand).train_x.length = 2
  ∧ ((preprocess (fun q => q) fixtureDF 1 fixRand).train_x.getD 0 []).length = 32 := by
  have hlen : (impute fixtureDF).values.length = 2 := by decide
  have hk : (⌊(1 : ℚ) * ((2 : ℕ) : ℚ)⌋).toNat = 2 := by
    have hfl : ⌊(1 : ℚ) * ((2 : ℕ) : ℚ)⌋ = 2 := by norm_num
    rw [hfl]
    rfl
  have htx : (preprocess (fun q => q) fixtureDF 1 fixRand).train_x
      = (fixRand.perm.take
          ((⌊(1 : ℚ) * (((impute fixtureDF).values.length : ℕ) : ℚ)⌋).toNat)).map
          (fun i => (impute fixtureDF).values.getD i []) := rfl
  refine ⟨by decide, by decide, by decide, by decide, ?_, ?_⟩
  · rw [htx, hlen, hk]
    decide
  · rw [htx, hlen, hk]
    decide

end Twins
